import Mathlib

/-!
Verification of the workflow-use core: a shallow embedding of
`src/workflow_use/models/workflow.py` (the `WorkflowStep`, `WorkflowResult`
and `Workflow` models) and of the `ServiceManager` process orchestration in
`src/main.py`, with theorems settling the specified properties.

Modelling conventions:
* Python `datetime` timestamps become integers (`Int`); every operation that
  calls `datetime.utcnow()` takes the current clock reading `now : Int` as an
  explicit argument.
* Step `order` values are `Nat` (the source declares `order: int = Field(..., ge=0)`).
* Fields irrelevant to the verified operations (free-form `config` mappings,
  retry settings, descriptions, tags, variables) are omitted from the records;
  no verified operation reads or writes them.
* Pydantic's `@validator("steps")` runs when the `steps` field is *set*
  (construction).  In-place list mutation (`self.steps.append(...)`) and plain
  attribute assignment do not re-run it: the model class declares no
  `validate_assignment` config.  The embedding therefore validates only in
  `Workflow.construct`, exactly as the source behaves at runtime.
-/

namespace WorkflowUse

/-- Step type tags, from `StepType` in workflow.py. -/
inductive StepType where
  | browser_action
  | api_call
  | data_processing
  | condition
  | loop
  | delay
  | notification
  | file_operation
  | ai_task
deriving DecidableEq, Repr

/-- Workflow execution status, from `WorkflowStatus` in workflow.py. -/
inductive WorkflowStatus where
  | draft
  | ready
  | running
  | paused
  | completed
  | failed
  | cancelled
deriving DecidableEq, Repr

/-- One step of a workflow, from `WorkflowStep` in workflow.py (fields used by
the verified operations: id, name, step type, order, dependencies,
timestamps). -/
structure WorkflowStep where
  id : String
  name : String
  step_type : StepType
  order : Nat
  depends_on : List String
  created_at : Int
  updated_at : Int
deriving DecidableEq, Repr

/-- Result of a workflow execution, from `WorkflowResult` in workflow.py. -/
structure WorkflowResult where
  workflow_id : String
  execution_id : String
  status : WorkflowStatus
  started_at : Int
  completed_at : Option Int
  duration_seconds : Option Int
  error_message : Option String
  steps_completed : Nat
  steps_total : Nat
deriving DecidableEq, Repr

/-- A complete workflow, from `Workflow` in workflow.py. -/
structure Workflow where
  id : String
  name : String
  version : String
  steps : List WorkflowStep
  status : WorkflowStatus
  created_at : Int
  updated_at : Int
  last_executed_at : Option Int
  execution_count : Nat
  success_count : Nat
deriving DecidableEq, Repr

/-- `[step.id for step in v]` — the list of step ids in declaration order. -/
def stepIds (v : List WorkflowStep) : List String :=
  v.map (fun s => s.id)

/-- `len(xs) != len(set(xs))` — Python's duplicate test by comparing the list
length with the cardinality of the set of its elements (`List.dedup` keeps one
copy of each distinct element, like `set`). -/
def hasDuplicates {α : Type} [DecidableEq α] (l : List α) : Bool :=
  decide (l.length ≠ l.dedup.length)

/-- The inner dependency checks of `Workflow.validate_steps`, for one step
`s`, walking its `depends_on` list:
`if dep_id not in step_ids: raise`, then
`dep_step = next(s for s in v if s.id == dep_id)` and
`if step.id in dep_step.depends_on: raise`. -/
def checkStepDeps (all : List WorkflowStep) (s : WorkflowStep) :
    List String → Except String Unit
  | [] => .ok ()
  | d :: ds =>
      if d ∈ stepIds all then
        match all.find? (fun t => t.id == d) with
        | some depStep =>
            if s.id ∈ depStep.depends_on then
              .error ("Circular dependency detected between " ++ s.id ++ " and " ++ d)
            else
              checkStepDeps all s ds
        | none => .error "unreachable: membership in stepIds guarantees find? succeeds"
      else
        .error ("Step " ++ s.id ++ " depends on non-existent step " ++ d)

/-- The outer `for step in v` loop of the dependency validation. -/
def checkDeps (all : List WorkflowStep) : List WorkflowStep → Except String Unit
  | [] => .ok ()
  | s :: rest =>
      match checkStepDeps all s s.depends_on with
      | .ok _ => checkDeps all rest
      | .error e => .error e

/-- `Workflow.validate_steps` from workflow.py: empty list passes; otherwise
reject duplicate step ids, then duplicate order values, then unresolvable or
directly circular dependencies. -/
def validate_steps (v : List WorkflowStep) : Except String (List WorkflowStep) :=
  if v.isEmpty then .ok v
  else if hasDuplicates (stepIds v) then .error "Duplicate step IDs found"
  else if hasDuplicates (v.map (fun s => s.order)) then
    .error "Duplicate step order values found"
  else
    match checkDeps v v with
    | .ok _ => .ok v
    | .error e => .error e

/-- Constructing a `Workflow(...)` with a given step list: pydantic runs the
`steps` validator during `__init__`; on failure no object is produced. -/
def Workflow.construct (id name version : String) (steps : List WorkflowStep)
    (status : WorkflowStatus) (now : Int) : Except String Workflow :=
  match validate_steps steps with
  | .ok v =>
      .ok { id := id, name := name, version := version, steps := v,
            status := status, created_at := now, updated_at := now,
            last_executed_at := none, execution_count := 0, success_count := 0 }
  | .error e => .error e

/-- `max(s.order for s in self.steps)` — only evaluated on a non-empty list in
the source; on `Nat` the fold from 0 agrees with the maximum there. -/
def maxOrder (steps : List WorkflowStep) : Nat :=
  steps.foldl (fun m s => max m s.order) 0

/-- `Workflow.add_step` from workflow.py: if the step's order is 0 and steps
already exist, auto-assign `max(existing orders) + 1`; append; touch
`updated_at`.  No validation runs (list mutation does not trigger the
pydantic validator). -/
def Workflow.add_step (w : Workflow) (now : Int) (step : WorkflowStep) : Workflow :=
  let step' :=
    if step.order == 0 && !w.steps.isEmpty then
      { step with order := maxOrder w.steps + 1 }
    else step
  { w with steps := w.steps ++ [step'], updated_at := now }

/-- `Workflow.remove_step` from workflow.py: filter out steps with the given
id; if anything was removed, strip dependencies on the removed id from the
remaining steps, touch `updated_at` and return `true`; otherwise return
`false`. -/
def Workflow.remove_step (w : Workflow) (now : Int) (step_id : String) :
    Workflow × Bool :=
  let original_count := w.steps.length
  let filtered := w.steps.filter (fun s => s.id ≠ step_id)
  if filtered.length < original_count then
    let stripped := filtered.map
      (fun s => { s with depends_on := s.depends_on.filter (fun dep => dep ≠ step_id) })
    ({ w with steps := stripped, updated_at := now }, true)
  else
    ({ w with steps := filtered }, false)

/-- `Workflow.get_step` from workflow.py. -/
def Workflow.get_step (w : Workflow) (step_id : String) : Option WorkflowStep :=
  w.steps.find? (fun s => s.id == step_id)

/-- Comparison by the `order` key, as in `sorted(self.steps, key=lambda s: s.order)`. -/
def stepOrderLE (a b : WorkflowStep) : Prop :=
  a.order ≤ b.order

instance : DecidableRel stepOrderLE :=
  fun a b => Nat.decLe a.order b.order

instance : IsTotal WorkflowStep stepOrderLE :=
  ⟨fun a b => Nat.le_total a.order b.order⟩

instance : IsTrans WorkflowStep stepOrderLE :=
  ⟨fun _ _ _ => Nat.le_trans⟩

/-- `Workflow.get_steps_by_order` from workflow.py: `sorted(self.steps, key=lambda s: s.order)`
(a stable sort ascending on the `order` key; `insertionSort` is likewise stable). -/
def Workflow.get_steps_by_order (w : Workflow) : List WorkflowStep :=
  w.steps.insertionSort stepOrderLE

/-- `Workflow.mark_executed` from workflow.py. -/
def Workflow.mark_executed (w : Workflow) (now : Int) (success : Bool) : Workflow :=
  { w with last_executed_at := some now,
           execution_count := w.execution_count + 1,
           success_count := if success then w.success_count + 1 else w.success_count,
           updated_at := now }

/-- `Workflow.success_rate` from workflow.py: `success_count / execution_count`,
0.0 when there are no executions (exact rational arithmetic stands in for the
float division). -/
def Workflow.success_rate (w : Workflow) : ℚ :=
  if w.execution_count = 0 then 0
  else (w.success_count : ℚ) / (w.execution_count : ℚ)

/-- `Workflow.is_executable` from workflow.py. -/
def Workflow.is_executable (w : Workflow) : Bool :=
  (w.status == .ready || w.status == .completed || w.status == .failed)
    && w.steps.length > 0

/-- `WorkflowResult.mark_completed` from workflow.py: stamp `completed_at`
with the clock, set `duration_seconds = completed_at - started_at` (the
`if self.started_at:` guard is always true — `started_at` is a required,
always-truthy `datetime`), and set the terminal status from `success`. -/
def WorkflowResult.mark_completed (r : WorkflowResult) (now : Int)
    (success : Bool) : WorkflowResult :=
  { r with completed_at := some now,
           duration_seconds := some (now - r.started_at),
           status := if success then .completed else .failed }

/-- `WorkflowResult.success_rate` from workflow.py. -/
def WorkflowResult.success_rate (r : WorkflowResult) : ℚ :=
  if r.steps_total = 0 then 0
  else (r.steps_completed : ℚ) / (r.steps_total : ℚ)

/-! ### ServiceManager (src/main.py)

The orchestrator's effectful operations are embedded with their external
interactions made explicit: spawn results, health-probe outcomes and process
liveness arrive as arguments, console output becomes a list of severity-tagged
messages, and `kill`/`terminate` system calls become an ordered list of
recorded actions. -/

/-- Severity of a console message, matching the rich colour codes the source
prints with (green/cyan = info, yellow = warning, red = error). -/
inductive Severity where
  | info
  | warning
  | error
deriving DecidableEq, Repr

/-- One console message printed by the ServiceManager. -/
structure LogMsg where
  severity : Severity
  text : String
deriving DecidableEq, Repr

/-- The mutable state of `ServiceManager`: `self.processes` (an
insertion-ordered dict from service name to the spawned process, here its pid)
and `self.start_times`. -/
structure ServiceState where
  processes : List (String × Nat)
  start_times : List (String × Int)
deriving DecidableEq, Repr

/-- Python dict assignment `d[k] = v`: overwrite in place when the key exists
(keeping its position), otherwise append — dicts preserve insertion order. -/
def dictInsert {β : Type} (d : List (String × β)) (k : String) (v : β) :
    List (String × β) :=
  if d.any (fun p => p.1 == k) then
    d.map (fun p => if p.1 == k then (k, v) else p)
  else d ++ [(k, v)]

/-- Outcome of the `subprocess.Popen` call: a spawned process (pid) or an
exception caught by the surrounding `try`. -/
inductive SpawnResult where
  | spawned (pid : Nat)
  | spawnFailure (msg : String)
deriving DecidableEq, Repr

/-- `ServiceManager.start_backend` from main.py.  Inputs from the outside
world: whether the `workflows` directory exists, the spawn outcome, and the
result of `wait_for_service` (the bounded health probe).  Returns the updated
manager state, the boolean the coroutine returns, and the console messages
(only the outcome line is modelled, not the banner/URL chatter).

Source behaviour: missing directory → error, `False`; spawn exception →
error, `False`; spawn ok then health probe ok → info, `True`; spawn ok then
health probe timeout → keep the process in `self.processes` (nothing kills
it), print a yellow warning, and return `False`. -/
def start_backend (st : ServiceState) (now : Int)
    (workflows_dir_exists : Bool) (spawn : SpawnResult) (healthy : Bool) :
    ServiceState × Bool × List LogMsg :=
  if !workflows_dir_exists then
    (st, false, [⟨.error, "Workflows directory not found"⟩])
  else
    let st0 := { st with start_times := dictInsert st.start_times "backend" now }
    match spawn with
    | .spawnFailure msg =>
        (st0, false, [⟨.error, "Failed to start backend: " ++ msg⟩])
    | .spawned pid =>
        let st1 := { st0 with processes := dictInsert st0.processes "backend" pid }
        if healthy then
          (st1, true, [⟨.info, "Backend started successfully"⟩])
        else
          (st1, false, [⟨.warning, "Backend started but health check failed"⟩])

/-- One termination performed by `cleanup_processes` (the taskkill /
SIGTERM-then-SIGKILL sequence applied to the process group of `pid`). -/
structure TermAction where
  name : String
  pid : Nat
deriving DecidableEq, Repr

/-- `ServiceManager.cleanup_processes` from main.py: early return when
`self.processes` is empty; otherwise iterate `self.processes.items()` in dict
(insertion = start) order, terminating each still-alive process; only after
the loop, `self.processes.clear()` and `self.start_times.clear()`.  `alive`
models `process.poll() is None`. -/
def cleanup_processes (st : ServiceState) (alive : Nat → Bool) :
    ServiceState × List TermAction :=
  if st.processes.isEmpty then (st, [])
  else
    let actions := st.processes.filterMap
      (fun p => if alive p.2 then some ⟨p.1, p.2⟩ else none)
    (⟨[], []⟩, actions)

/-! ### Concrete data used by counterexamples and witnesses -/

/-- A step with id "A" and order 1. -/
def sOne : WorkflowStep :=
  ⟨"A", "step A", .delay, 1, [], 0, 0⟩

/-- A second step with the distinct id "B" but the same order 1 as `sOne`. -/
def sOneB : WorkflowStep :=
  ⟨"B", "step B", .delay, 1, [], 0, 0⟩

/-- A step re-using the id "A" of `sOne`, with a fresh order. -/
def sDupA : WorkflowStep :=
  ⟨"A", "duplicate of A", .delay, 7, [], 0, 0⟩

/-- A valid one-step workflow containing `sOne`. -/
def wOne : Workflow :=
  ⟨"w", "wf", "1.0.0", [sOne], .draft, 0, 0, none, 0, 0⟩

/-! ### Theorems -/

/-- C1, counterexample: `add_step` does not re-validate, so adding a step whose
order duplicates an existing one makes `get_steps_by_order` return two steps
with the same order — the sequence is not strictly ascending. -/
theorem C1_counterexample :
    ((wOne.add_step 5 sOneB).get_steps_by_order.map (fun s => s.order) = [1, 1])
    ∧ ¬ List.Pairwise (fun a b : Nat => a < b)
        ((wOne.add_step 5 sOneB).get_steps_by_order.map (fun s => s.order)) := by
  decide

/-- C1, amended: after any `add_step`, `get_steps_by_order` returns a
permutation of the workflow's steps sorted ascending (non-strictly) by
`order`; duplicate order values are possible because `add_step` performs no
validation. -/
theorem C1_get_steps_by_order_sorted (w : Workflow) (now : Int) (s : WorkflowStep) :
    List.Sorted stepOrderLE (w.add_step now s).get_steps_by_order
    ∧ (w.add_step now s).get_steps_by_order.Perm (w.add_step now s).steps := by
  exact ⟨List.sorted_insertionSort stepOrderLE _, List.perm_insertionSort stepOrderLE _⟩

/-- C2, counterexample: `add_step` with an explicitly duplicated step id raises
no validation error; the step collection and `updated_at` are both modified,
contradicting the claim that the workflow is left unmodified under a
`ValidationError`. -/
theorem C2_counterexample :
    ((wOne.add_step 5 sDupA).steps.map (fun s => s.id) = ["A", "A"])
    ∧ (wOne.add_step 5 sDupA).steps ≠ wOne.steps
    ∧ (wOne.add_step 5 sDupA).updated_at ≠ wOne.updated_at := by
  decide

/-- C2, amended: `add_step` performs no re-validation at all.  It always
succeeds: the new step (with its order auto-assigned when the sentinel 0 is
supplied and steps exist) is appended unconditionally — even when its id
duplicates an existing one — and `updated_at` is touched. -/
theorem C2_add_step_never_validates (w : Workflow) (now : Int) (s : WorkflowStep) :
    ((w.add_step now s).steps.length = w.steps.length + 1)
    ∧ ((w.add_step now s).steps.map (fun t => t.id)
        = w.steps.map (fun t => t.id) ++ [s.id])
    ∧ (w.add_step now s).updated_at = now := by
  unfold Workflow.add_step
  by_cases h : s.order == 0 && !w.steps.isEmpty <;> simp [h]

/-- C4: a three-step cycle A→B→C→A with no direct two-node cycle passes
`validate_steps`, and the workflow is constructed — the circular-dependency
check only detects direct two-node cycles. -/
theorem C4_three_cycle_passes_validation :
    (let a : WorkflowStep := ⟨"A", "step A", .delay, 0, ["B"], 0, 0⟩
     let b : WorkflowStep := ⟨"B", "step B", .delay, 1, ["C"], 0, 0⟩
     let c : WorkflowStep := ⟨"C", "step C", .delay, 2, ["A"], 0, 0⟩
     (validate_steps [a, b, c]).isOk = true
     ∧ (Workflow.construct "w" "wf" "1.0.0" [a, b, c] .draft 0).isOk = true
     ∧ b.id ∈ a.depends_on ∧ c.id ∈ b.depends_on ∧ a.id ∈ c.depends_on
     ∧ a.id ∉ b.depends_on ∧ b.id ∉ c.depends_on ∧ c.id ∉ a.depends_on) := by
  decide

/-- C10: on a workflow with a non-empty step list, `add_step` treats order 0
as the auto-assign sentinel — a step supplied with order 0 is appended with
order `max(existing orders) + 1` instead — and every step the call appends
has a non-zero order. -/
theorem C10_add_step_zero_order_sentinel (w : Workflow) (now : Int)
    (s : WorkflowStep) (h : w.steps ≠ []) :
    (s.order = 0 →
      (w.add_step now s).steps
        = w.steps ++ [{ s with order := maxOrder w.steps + 1 }])
    ∧ ∀ t ∈ (w.add_step now s).steps, t ∈ w.steps ∨ t.order ≠ 0 := by
  have hne : w.steps.isEmpty = false := by
    simpa [List.isEmpty_iff] using h
  unfold Workflow.add_step
  constructor
  · intro h0
    simp [h0, hne]
  · intro t ht
    by_cases h0 : s.order = 0
    · simp [h0, hne] at ht
      rcases ht with ht | ht
      · exact Or.inl ht
      · exact Or.inr (by simp [ht])
    · simp [h0, hne] at ht
      rcases ht with ht | ht
      · exact Or.inl ht
      · exact Or.inr (by simp [ht, h0])

/-- C10, witness: adding an order-0 step to the non-empty workflow `wOne`
appends it with order `maxOrder + 1 = 2`. -/
theorem C10_witness :
    (wOne.add_step 5 ⟨"Z", "step Z", .delay, 0, [], 0, 0⟩).steps
      = wOne.steps ++ [⟨"Z", "step Z", .delay, maxOrder wOne.steps + 1, [], 0, 0⟩] :=
  (C10_add_step_zero_order_sentinel wOne 5 ⟨"Z", "step Z", .delay, 0, [], 0, 0⟩
    (by decide)).1 (by decide)

/-- C5: `remove_step(x)` returns true exactly when a step with id `x` was
present; on success, no step with id `x` remains, `x` is stripped from every
remaining step's `depends_on`, and `updated_at` is touched. -/
theorem C5_remove_step_cascades (w : Workflow) (now : Int) (x : String) :
    ((w.remove_step now x).2 = w.steps.any (fun s => s.id == x))
    ∧ ((w.remove_step now x).2 = true →
        (∀ s ∈ (w.remove_step now x).1.steps, s.id ≠ x ∧ x ∉ s.depends_on)
        ∧ (w.remove_step now x).1.updated_at = now) := by
  simp only [Workflow.remove_step]
  split
  next hlt =>
    have hany : w.steps.any (fun s => s.id == x) = true := by
      rw [List.any_eq_true]
      rcases List.length_filter_lt_length_iff_exists.mp hlt with ⟨s, hs, hp⟩
      refine ⟨s, hs, ?_⟩
      simpa using hp
    refine ⟨by rw [hany], ?_⟩
    intro _
    refine ⟨?_, rfl⟩
    intro s hs
    rcases List.mem_map.mp hs with ⟨t, ht, rfl⟩
    have htid : t.id ≠ x := by
      have := (List.mem_filter.mp ht).2
      simpa using this
    refine ⟨htid, ?_⟩
    intro hx
    have := (List.mem_filter.mp hx).2
    simp at this
  next hlt =>
    have hany : w.steps.any (fun s => s.id == x) = false := by
      rw [Bool.eq_false_iff]
      intro hc
      rcases List.any_eq_true.mp hc with ⟨s, hs, hp⟩
      apply hlt
      rw [List.length_filter_lt_length_iff_exists]
      exact ⟨s, hs, by simpa using hp⟩
    refine ⟨by rw [hany], ?_⟩
    intro hc
    simp at hc

/-- C5, witness: removing "A" from a workflow where "B" depends on "A"
returns true, leaves no step with id "A", strips the dependency, and stamps
`updated_at`. -/
theorem C5_witness :
    (let w : Workflow :=
      ⟨"w", "wf", "1.0.0",
        [⟨"A", "step A", .delay, 0, [], 0, 0⟩,
         ⟨"B", "step B", .delay, 1, ["A"], 0, 0⟩],
        .draft, 0, 0, none, 0, 0⟩
     (w.remove_step 9 "A").2 = true
     ∧ (∀ s ∈ (w.remove_step 9 "A").1.steps, s.id ≠ "A" ∧ "A" ∉ s.depends_on)
     ∧ (w.remove_step 9 "A").1.updated_at = 9) := by
  have h := C5_remove_step_cascades
    ⟨"w", "wf", "1.0.0",
      [⟨"A", "step A", .delay, 0, [], 0, 0⟩,
       ⟨"B", "step B", .delay, 1, ["A"], 0, 0⟩],
      .draft, 0, 0, none, 0, 0⟩ 9 "A"
  have hret := h.1
  have hpost := h.2 (by rw [hret]; decide)
  exact ⟨by rw [hret]; decide, hpost.1, hpost.2⟩

/-- `mark_executed(success=True)` iterated `N` times at clock reading `now`. -/
def markExecutedN (w : Workflow) (now : Int) : Nat → Workflow
  | 0 => w
  | n + 1 => (markExecutedN w now n).mark_executed now true

/-- Counters after `markExecutedN`: both grow by exactly the number of calls. -/
theorem markExecutedN_counts (w : Workflow) (now : Int) :
    ∀ N : Nat, (markExecutedN w now N).execution_count = w.execution_count + N
      ∧ (markExecutedN w now N).success_count = w.success_count + N := by
  intro N
  induction N with
  | zero => exact ⟨rfl, rfl⟩
  | succ n ih =>
      constructor
      · simp only [markExecutedN, Workflow.mark_executed, ih.1]
        omega
      · simp only [markExecutedN, Workflow.mark_executed, if_pos, ih.2]
        omega

/-- C6: `mark_executed(success=True)` called N times on a fresh workflow
(both counters 0) yields `execution_count = N` and `success_count = N`; for
N > 0 the success rate is exactly 1; and any workflow with
`execution_count = 0` has success rate 0. -/
theorem C6_mark_executed_success_rate (w : Workflow) (now : Int) (N : Nat)
    (h0 : w.execution_count = 0) (h1 : w.success_count = 0) :
    (markExecutedN w now N).execution_count = N
    ∧ (markExecutedN w now N).success_count = N
    ∧ (0 < N → (markExecutedN w now N).success_rate = 1)
    ∧ ∀ w' : Workflow, w'.execution_count = 0 → w'.success_rate = 0 := by
  have hc := markExecutedN_counts w now N
  have he : (markExecutedN w now N).execution_count = N := by
    rw [hc.1, h0, Nat.zero_add]
  have hs : (markExecutedN w now N).success_count = N := by
    rw [hc.2, h1, Nat.zero_add]
  refine ⟨he, hs, ?_, ?_⟩
  · intro hN
    unfold Workflow.success_rate
    rw [he, hs, if_neg (Nat.pos_iff_ne_zero.mp hN)]
    exact div_self (by exact_mod_cast Nat.pos_iff_ne_zero.mp hN)
  · intro w' hw'
    unfold Workflow.success_rate
    rw [if_pos hw']

/-- C6, witness: three successful executions of the fresh workflow `wOne`
give counters 3/3 and success rate 1. -/
theorem C6_witness :
    (markExecutedN wOne 4 3).execution_count = 3
    ∧ (markExecutedN wOne 4 3).success_count = 3
    ∧ (markExecutedN wOne 4 3).success_rate = 1 := by
  have h := C6_mark_executed_success_rate wOne 4 3 rfl rfl
  exact ⟨h.1, h.2.1, h.2.2.1 (by decide)⟩

/-- A `WorkflowResult` whose `started_at` (10) lies after the clock reading
(3) at which it is completed. -/
def resLate : WorkflowResult :=
  ⟨"w", "e", .running, 10, none, none, none, 0, 0⟩

/-- C7, counterexample: `mark_completed` at a clock reading earlier than
`started_at` computes a negative `duration_seconds` — the code never enforces
non-negativity. -/
theorem C7_counterexample :
    (resLate.mark_completed 3 true).duration_seconds = some (-7)
    ∧ ((-7 : Int) < 0) := by
  decide

/-- C7, amended: `mark_completed(success)` stamps `completed_at` with the
clock, sets `duration_seconds = completed_at - started_at` exactly, and sets
the status to completed/failed according to `success`; the duration is
non-negative whenever the completion clock reading is not before
`started_at` (which the code does not itself enforce). -/
theorem C7_mark_completed (r : WorkflowResult) (now : Int) (success : Bool) :
    (r.mark_completed now success).completed_at = some now
    ∧ (r.mark_completed now success).duration_seconds = some (now - r.started_at)
    ∧ (r.mark_completed now success).status
        = (if success then .completed else .failed)
    ∧ (r.started_at ≤ now →
        ∀ d, (r.mark_completed now success).duration_seconds = some d → 0 ≤ d) := by
  refine ⟨rfl, rfl, rfl, ?_⟩
  intro hle d hd
  have : now - r.started_at = d := by
    simpa [WorkflowResult.mark_completed] using hd
  omega

/-- C7, witness: completing at clock 9 a result started at 2 yields duration
7 ≥ 0 and status `failed` for `success = false`. -/
theorem C7_witness :
    (let r : WorkflowResult := ⟨"w", "e", .running, 2, none, none, none, 0, 0⟩
     (r.mark_completed 9 false).completed_at = some 9
     ∧ (r.mark_completed 9 false).status = .failed
     ∧ ∀ d, (r.mark_completed 9 false).duration_seconds = some d → 0 ≤ d) := by
  have h := C7_mark_completed ⟨"w", "e", .running, 2, none, none, none, 0, 0⟩ 9 false
  exact ⟨h.1, h.2.2.1, h.2.2.2 (by decide)⟩

/-- Writing a key always leaves the written pair in the dict. -/
theorem mem_dictInsert {β : Type} (d : List (String × β)) (k : String) (v : β) :
    (k, v) ∈ dictInsert d k v := by
  unfold dictInsert
  split
  next h =>
    rcases List.any_eq_true.mp h with ⟨p, hp, hpk⟩
    have hmem := List.mem_map_of_mem (fun q => if q.1 == k then (k, v) else q) hp
    simp only [hpk, if_true, if_pos] at hmem
    exact hmem
  next =>
    exact List.mem_append_right d (List.mem_singleton.mpr rfl)

/-- C8, counterexample: with the workflows directory present, a successful
spawn and a health probe that times out, `start_backend` returns `false` —
not success as the claim states. -/
theorem C8_counterexample :
    (start_backend ⟨[], []⟩ 0 true (.spawned 42) false).2.1 = false := by
  decide

/-- C8, amended: on health-probe timeout after a successful spawn,
`start_backend` keeps the process registered (nothing terminates it), records
the outcome as a warning rather than an error, but returns failure (`False`)
to the caller. -/
theorem C8_start_backend_degraded (st : ServiceState) (now : Int) (pid : Nat) :
    (start_backend st now true (.spawned pid) false).2.1 = false
    ∧ ("backend", pid) ∈ (start_backend st now true (.spawned pid) false).1.processes
    ∧ (start_backend st now true (.spawned pid) false).2.2
        = [⟨.warning, "Backend started but health check failed"⟩] := by
  refine ⟨rfl, ?_, rfl⟩
  exact mem_dictInsert st.processes "backend" pid

/-- A two-service manager state: backend started first, webui second. -/
def stTwo : ServiceState :=
  ⟨[("backend", 1), ("webui", 2)], [("backend", 0), ("webui", 1)]⟩

/-- C9, counterexample: with backend started before webui and both still
running, `cleanup_processes` terminates backend first — forward start order,
not the reverse order the claim states. -/
theorem C9_counterexample :
    (cleanup_processes stTwo (fun _ => true)).2 = [⟨"backend", 1⟩, ⟨"webui", 2⟩]
    ∧ (cleanup_processes stTwo (fun _ => true)).2 ≠ [⟨"webui", 2⟩, ⟨"backend", 1⟩] := by
  decide

/-- The termination actions projected back to (name, pid) pairs are exactly
the still-alive entries of the process dict, in forward order. -/
theorem cleanup_actions_eq_filter (alive : Nat → Bool) :
    ∀ l : List (String × Nat),
      (l.filterMap (fun p =>
          if alive p.2 then some (⟨p.1, p.2⟩ : TermAction) else none)).map
        (fun a => (a.name, a.pid))
      = l.filter (fun p => alive p.2) := by
  intro l
  induction l with
  | nil => rfl
  | cons p t ih =>
      by_cases hp : alive p.2
      · simp [List.filterMap_cons, List.filter_cons, hp, ih]
      · simp [List.filterMap_cons, List.filter_cons, hp, ih]

/-- C9, amended: on a non-empty process table, `cleanup_processes` terminates
the still-running services in forward start order (the order-preserving
restriction of the start order to live processes — the first service started
is terminated first), every live process is terminated, and the bookkeeping
is cleared only in the final state, after all handles were processed. -/
theorem C9_cleanup_forward_order (st : ServiceState) (alive : Nat → Bool)
    (h : st.processes ≠ []) :
    ((cleanup_processes st alive).2.map (fun a => (a.name, a.pid))
        = st.processes.filter (fun p => alive p.2))
    ∧ ((cleanup_processes st alive).2.map (fun a => (a.name, a.pid))).Sublist
        st.processes
    ∧ (∀ p ∈ st.processes, alive p.2 = true →
        (⟨p.1, p.2⟩ : TermAction) ∈ (cleanup_processes st alive).2)
    ∧ (cleanup_processes st alive).1 = ⟨[], []⟩ := by
  have hne : st.processes.isEmpty = false := by
    simpa [List.isEmpty_iff] using h
  have hact : (cleanup_processes st alive).2
      = st.processes.filterMap
          (fun p => if alive p.2 then some (⟨p.1, p.2⟩ : TermAction) else none) := by
    unfold cleanup_processes
    rw [if_neg (by simp [hne])]
  have heq := cleanup_actions_eq_filter alive st.processes
  refine ⟨by rw [hact, heq], ?_, ?_, ?_⟩
  · rw [hact, heq]
    exact List.filter_sublist st.processes
  · intro p hp hal
    rw [hact, List.mem_filterMap]
    exact ⟨p, hp, by rw [if_pos hal]⟩
  · unfold cleanup_processes
    rw [if_neg (by simp [hne])]

/-- C9, witness: on the concrete two-service state with both processes alive,
the termination actions follow start order and the final state is cleared. -/
theorem C9_witness :
    ((cleanup_processes stTwo (fun _ => true)).2.map (fun a => (a.name, a.pid))
        = stTwo.processes.filter (fun p => (fun _ => true) p.2))
    ∧ (cleanup_processes stTwo (fun _ => true)).1 = ⟨[], []⟩ := by
  have h := C9_cleanup_forward_order stTwo (fun _ => true) (by decide)
  exact ⟨h.1, h.2.2.2⟩

/-- The Python duplicate test is exactly the negation of `Nodup`. -/
theorem hasDuplicates_eq_false_iff {α : Type} [DecidableEq α] (l : List α) :
    hasDuplicates l = false ↔ l.Nodup := by
  unfold hasDuplicates
  rw [decide_eq_false_iff_not, not_ne_iff]
  constructor
  · intro hlen
    exact List.dedup_eq_self.mp ((List.dedup_sublist l).eq_of_length hlen.symm)
  · intro hnd
    rw [List.dedup_eq_self.mpr hnd]

/-- A successful validation means the list was empty or every check passed. -/
theorem validate_steps_ok {v u : List WorkflowStep}
    (h : validate_steps v = .ok u) :
    v = [] ∨ ((stepIds v).Nodup ∧ (v.map (fun s => s.order)).Nodup
      ∧ checkDeps v v = .ok ()) := by
  unfold validate_steps at h
  by_cases he : v.isEmpty
  · exact Or.inl (List.isEmpty_iff.mp he)
  · rw [if_neg he] at h
    by_cases h1 : hasDuplicates (stepIds v) = true
    · rw [if_pos h1] at h
      simp at h
    · rw [if_neg h1] at h
      by_cases h2 : hasDuplicates (v.map (fun s => s.order)) = true
      · rw [if_pos h2] at h
        simp at h
      · rw [if_neg h2] at h
        cases hcd : checkDeps v v with
        | ok x =>
            cases x
            exact Or.inr ⟨(hasDuplicates_eq_false_iff _).mp (Bool.not_eq_true _ ▸ h1),
              (hasDuplicates_eq_false_iff _).mp (Bool.not_eq_true _ ▸ h2), rfl⟩
        | error e =>
            rw [hcd] at h
            simp at h

/-- A successful dependency sweep checked every step of the list. -/
theorem checkDeps_ok {all : List WorkflowStep} :
    ∀ (l : List WorkflowStep), checkDeps all l = .ok () →
      ∀ s ∈ l, checkStepDeps all s s.depends_on = .ok () := by
  intro l
  induction l with
  | nil =>
      intro _ s hs
      exact absurd hs (List.not_mem_nil s)
  | cons a t ih =>
      intro h s hs
      unfold checkDeps at h
      cases hcs : checkStepDeps all a a.depends_on with
      | ok x =>
          cases x
          rw [hcs] at h
          rcases List.mem_cons.mp hs with rfl | hst
          · exact hcs
          · exact ih h s hst
      | error e =>
          rw [hcs] at h
          simp at h

/-- A successful per-step sweep means every dependency resolves and the found
dependency step does not point back. -/
theorem checkStepDeps_ok {all : List WorkflowStep} {s : WorkflowStep} :
    ∀ (ds : List String), checkStepDeps all s ds = .ok () →
      ∀ d ∈ ds, d ∈ stepIds all
        ∧ ∀ depStep, all.find? (fun t => t.id == d) = some depStep →
            s.id ∉ depStep.depends_on := by
  intro ds
  induction ds with
  | nil =>
      intro _ d hd
      exact absurd hd (List.not_mem_nil d)
  | cons a t ih =>
      intro h d hd
      unfold checkStepDeps at h
      by_cases hmem : a ∈ stepIds all
      · rw [if_pos hmem] at h
        cases hf : all.find? (fun t2 => t2.id == a) with
        | some depStep =>
            simp only [hf] at h
            by_cases hcirc : s.id ∈ depStep.depends_on
            · rw [if_pos hcirc] at h
              simp at h
            · rw [if_neg hcirc] at h
              rcases List.mem_cons.mp hd with rfl | hdt
              · refine ⟨hmem, ?_⟩
                intro dep2 hdep2
                rw [hf] at hdep2
                injection hdep2 with he
                subst he
                exact hcirc
              · exact ih h d hdt
        | none =>
            simp only [hf] at h
            exact Except.noConfusion h
      · rw [if_neg hmem] at h
        simp at h

/-- With pairwise-distinct step ids, `next(s for s in v if s.id == dep_id)`
applied to the id of a member returns that member itself. -/
theorem find?_step_eq {all : List WorkflowStep} (hnd : (stepIds all).Nodup)
    {b : WorkflowStep} (hb : b ∈ all) :
    all.find? (fun t => t.id == b.id) = some b := by
  have hnd' : (all.map (fun s => s.id)).Nodup := hnd
  have hsome : (all.find? (fun t => t.id == b.id)).isSome := by
    rw [List.find?_isSome]
    exact ⟨b, hb, by simp⟩
  rcases Option.isSome_iff_exists.mp hsome with ⟨c, hc⟩
  have hcb : c.id = b.id := by
    have := List.find?_some hc
    simpa using this
  have hcmem : c ∈ all := List.mem_of_find?_eq_some hc
  rw [hc, List.inj_on_of_nodup_map hnd' hcmem hb hcb]

/-- C3: constructing a workflow from a step list containing a duplicate id, a
duplicate order value, an unresolvable dependency, or a direct two-cycle
fails validation — no workflow value is produced (in the pure embedding no
state exists to be left partially modified). -/
theorem C3_construction_rejects_violations (wid wname wversion : String)
    (status : WorkflowStatus) (now : Int) (v : List WorkflowStep)
    (h : ¬ (stepIds v).Nodup
       ∨ ¬ (v.map (fun s => s.order)).Nodup
       ∨ (∃ s ∈ v, ∃ d ∈ s.depends_on, d ∉ stepIds v)
       ∨ (∃ a ∈ v, ∃ b ∈ v, b.id ∈ a.depends_on ∧ a.id ∈ b.depends_on)) :
    (validate_steps v).isOk = false
    ∧ (Workflow.construct wid wname wversion v status now).isOk = false := by
  have hval : (validate_steps v).isOk = false := by
    cases hv : validate_steps v with
    | error e => rfl
    | ok u =>
        exfalso
        rcases validate_steps_ok hv with rfl | ⟨hids, hords, hdeps⟩
        · rcases h with h | h | h | h
          · exact h List.nodup_nil
          · exact h List.nodup_nil
          · rcases h with ⟨s, hs, _⟩
            exact absurd hs (List.not_mem_nil s)
          · rcases h with ⟨a, ha, _⟩
            exact absurd ha (List.not_mem_nil a)
        · rcases h with h | h | h | h
          · exact h hids
          · exact h hords
          · rcases h with ⟨s, hs, d, hd, hnot⟩
            exact hnot ((checkStepDeps_ok _ (checkDeps_ok _ hdeps s hs) d hd).1)
          · rcases h with ⟨a, ha, b, hb, hba, hab⟩
            have hsd := checkStepDeps_ok _ (checkDeps_ok _ hdeps a ha) b.id hba
            exact (hsd.2 b (find?_step_eq hids hb)) hab
  refine ⟨hval, ?_⟩
  unfold Workflow.construct
  cases hv : validate_steps v with
  | ok u =>
      rw [hv] at hval
      exact Bool.noConfusion hval
  | error e => rfl

/-- C3, witness: the two steps `sOne` and `sDupA` share the id "A", so both
validation and construction reject the list. -/
theorem C3_witness :
    (validate_steps [sOne, sDupA]).isOk = false
    ∧ (Workflow.construct "w" "wf" "1.0.0" [sOne, sDupA] .draft 0).isOk = false :=
  C3_construction_rejects_violations "w" "wf" "1.0.0" .draft 0 [sOne, sDupA]
    (Or.inl (by decide))

end WorkflowUse
